import Mathlib

/-
Verification model of `src/lib/src/data/data.rs` (the `Data` type: the
peekable, one-shot-consumable body of an incoming HTTP request).

Bytes are modelled as `Nat`s and byte buffers as `List Nat`.  The framed body
reader (`BodyReader` in the source, an `HttpReader` over a chained stream) is
modelled at two levels of abstraction:

* `BodyReader` below models the framed reader abstractly, by the byte
  sequence it will yield before signalling end-of-body together with a flag
  telling whether it ends in an IO error instead of a clean end.  This level
  backs `Data::new`, `Data::open`, `Data::peek` and `Data::peek_complete`.

* `HttpReader ChainReader` below models the reader structurally, keeping the
  framing variant and the two-stage chained continuation reader, as needed
  for `Data::from_hyp` and `Data::local`.
-/

/-- The number of bytes to read into the "peek" buffer (`PEEK_BYTES`). -/
def PEEK_BYTES : Nat := 4096

/-- Abstraction of the source's framed `BodyReader`: the bytes it will still
yield, and whether it signals an IO error (rather than a clean end-of-body)
once those bytes are exhausted. -/
structure BodyReader where
  bytes : List Nat
  ioError : Bool
deriving DecidableEq

/-- Modelled from the spec: `read_max` (from `ReadExt`, a sibling module not
under `src/`) eagerly performs read calls against the framed reader until
`cap` bytes are collected or the reader signals end; an IO error aborts the
fill and is returned as an error, with the reader left advanced past the
bytes it already yielded (and still poised to fail on later reads). -/
def read_max (r : BodyReader) (cap : Nat) : Except Unit (List Nat) × BodyReader :=
  if cap ≤ r.bytes.length then
    (Except.ok (r.bytes.take cap), ⟨r.bytes.drop cap, r.ioError⟩)
  else if r.ioError then
    (Except.error (), ⟨[], true⟩)
  else
    (Except.ok r.bytes, ⟨[], false⟩)

/-- The `Data` struct: the peek buffer, the completeness flag, and the
remaining framed reader.  The stream representation is a type parameter so
that the same struct serves both the abstract level (`Data BodyReader`) and
the structural level (`Data (HttpReader ChainReader)`). -/
structure Data (σ : Type) where
  buffer : List Nat
  is_complete : Bool
  stream : σ

/-- `Data::peek`: the peek buffer, unconsumed. -/
def Data.peek {σ : Type} (d : Data σ) : List Nat := d.buffer

/-- `Data::peek_complete`: whether the peek buffer holds the whole body. -/
def Data.peek_complete {σ : Type} (d : Data σ) : Bool := d.is_complete

/-- `Data::new`: fill the peek buffer from the framed reader with up to
`PEEK_BYTES` bytes.  On a successful fill of `n` bytes the buffer keeps those
`n` bytes and `is_complete` is `n < PEEK_BYTES`; on an IO error the buffer is
reset to length 0 and `is_complete` is `false`. -/
def Data.new (stream : BodyReader) : Data BodyReader :=
  match read_max stream PEEK_BYTES with
  | (Except.ok buf, rest) => ⟨buf, decide (buf.length < PEEK_BYTES), rest⟩
  | (Except.error _, rest) => ⟨[], false, rest⟩

/-- The `DataStream` returned by `Data::open`, abstracted by its yield: the
bytes it produces, and whether it ends in an IO error. -/
structure DataStream where
  bytes : List Nat
  ioError : Bool
deriving DecidableEq

/-- `Data::open`: the returned stream chains the peek buffer in front of the
remaining framed reader (`Cursor::new(buffer).chain(stream)`). -/
def Data.openStream (d : Data BodyReader) : DataStream :=
  ⟨d.buffer ++ d.stream.bytes, d.stream.ioError⟩

/-- Normal form of `Data::new` on an error-free framed reader. -/
lemma data_new_eq (body : List Nat) :
    Data.new ⟨body, false⟩ =
      ⟨body.take PEEK_BYTES, decide (body.length < PEEK_BYTES),
        ⟨body.drop PEEK_BYTES, false⟩⟩ := by
  by_cases hc : PEEK_BYTES ≤ body.length
  · simp only [Data.new, read_max, if_pos hc, Bool.false_eq_true, if_false]
    have hlen : (body.take PEEK_BYTES).length = PEEK_BYTES := by
      simp [List.length_take]; omega
    have : ¬ body.length < PEEK_BYTES := by omega
    simp [hlen, this]
  · have hlt : body.length < PEEK_BYTES := by omega
    have htake : body.take PEEK_BYTES = body := List.take_of_length_le (by omega)
    have hdrop : body.drop PEEK_BYTES = [] := List.drop_eq_nil_of_le (by omega)
    simp [Data.new, read_max, hc, htake, hdrop]

/-- Normal form of `Data::new` on a framed reader that errors mid-fill. -/
lemma data_new_error_eq (body : List Nat) (h : body.length < PEEK_BYTES) :
    Data.new ⟨body, true⟩ = ⟨[], false, ⟨[], true⟩⟩ := by
  have hc : ¬ PEEK_BYTES ≤ body.length := by omega
  simp [Data.new, read_max, hc]

/-- C1: `open()` yields first every byte of the peek buffer and then
everything the framed reader produces, and for an error-free body the result
is exactly the source body's bytes, once; in particular the first
`PEEK_BYTES` bytes of the opened stream equal `peek()`'s result. -/
theorem c1_open_yields_whole_body (body : List Nat) :
    (Data.new ⟨body, false⟩).openStream = ⟨body, false⟩ ∧
    ((Data.new ⟨body, false⟩).openStream).bytes.take PEEK_BYTES
      = (Data.new ⟨body, false⟩).peek ∧
    (∀ d : Data BodyReader, d.openStream.bytes = d.buffer ++ d.stream.bytes) := by
  refine ⟨?_, ?_, fun d => rfl⟩
  · rw [data_new_eq]
    simp [Data.openStream, List.take_append_drop]
  · rw [data_new_eq]
    simp [Data.openStream, Data.peek, List.take_append_drop]

/-- C2 counterexample: for a source body of exactly `PEEK_BYTES = 4096`
bytes, `peek_complete()` is `false`, contradicting the claim that it is
`true` for every body of length L ≤ 4096 "including L exactly equal to
4096". -/
theorem c2_counterexample :
    (List.replicate 4096 0).length = 4096 ∧
    (Data.new ⟨List.replicate 4096 0, false⟩).peek_complete = false := by
  have hlen : (List.replicate 4096 (0 : Nat)).length = 4096 := List.length_replicate 4096 0
  refine ⟨hlen, ?_⟩
  rw [data_new_eq]
  simp only [Data.peek_complete, hlen]
  decide

/-- C2 (amended): for every error-free body of length L ≤ 4096, `peek()`
returns exactly the L source bytes, and `peek_complete()` is `true` exactly
when L < 4096 (for L = 4096 it is `false`). -/
theorem c2_amended_peek_small_body (body : List Nat) (h : body.length ≤ PEEK_BYTES) :
    (Data.new ⟨body, false⟩).peek = body ∧
    (Data.new ⟨body, false⟩).peek_complete = decide (body.length < PEEK_BYTES) := by
  rw [data_new_eq]
  exact ⟨List.take_of_length_le h, rfl⟩

/-- Witness for C2 (amended) at the concrete body `[1, 2, 3]`. -/
theorem c2_amended_peek_small_body_witness :
    (Data.new ⟨[1, 2, 3], false⟩).peek = [1, 2, 3] ∧
    (Data.new ⟨[1, 2, 3], false⟩).peek_complete
      = decide (([1, 2, 3] : List Nat).length < PEEK_BYTES) :=
  c2_amended_peek_small_body [1, 2, 3] (by decide)

/-- C3: the peek fill reads from the framed reader until `PEEK_BYTES` bytes
are collected or the reader ends, so the buffer is the first
`min(L, PEEK_BYTES)` body bytes; `is_complete` is `true` exactly when fewer
than `PEEK_BYTES` bytes were read (and `false` when the total read equals
`PEEK_BYTES`). -/
theorem c3_peek_fill (body : List Nat) :
    (Data.new ⟨body, false⟩).buffer = body.take PEEK_BYTES ∧
    (Data.new ⟨body, false⟩).is_complete = decide (body.length < PEEK_BYTES) := by
  rw [data_new_eq]
  exact ⟨rfl, rfl⟩

/-- C4 counterexample: for a framed reader that yields `[1, 2, 3]` and then
fails with an IO error, the constructed peek buffer is empty — not
"truncated to whatever was read so far" (`[1, 2, 3]`) as the claim states. -/
theorem c4_counterexample :
    (Data.new ⟨[1, 2, 3], true⟩).buffer = [] ∧
    decide ((Data.new ⟨[1, 2, 3], true⟩).buffer = [1, 2, 3]) = false := by
  rw [data_new_error_eq [1, 2, 3] (by decide)]
  exact ⟨rfl, by decide⟩

/-- C4 (amended): if an IO error occurs during the peek-buffer fill, the
`Data` is still constructed (no error is raised), its peek buffer is reset to
the empty buffer (bytes already read are discarded), `is_complete` is
`false`, and the error is deferred: the later opened stream ends in the IO
error. -/
theorem c4_amended_error_fill (body : List Nat) (h : body.length < PEEK_BYTES) :
    (Data.new ⟨body, true⟩).buffer = [] ∧
    (Data.new ⟨body, true⟩).is_complete = false ∧
    ((Data.new ⟨body, true⟩).openStream).ioError = true := by
  rw [data_new_error_eq body h]
  exact ⟨rfl, rfl, rfl⟩

/-- Witness for C4 (amended) at the concrete failing reader yielding
`[1, 2, 3]` before the error. -/
theorem c4_amended_error_fill_witness :
    ([1, 2, 3] : List Nat).length < PEEK_BYTES ∧
    ((Data.new ⟨[1, 2, 3], true⟩).buffer = [] ∧
     (Data.new ⟨[1, 2, 3], true⟩).is_complete = false ∧
     ((Data.new ⟨[1, 2, 3], true⟩).openStream).ioError = true) :=
  ⟨by decide, c4_amended_error_fill [1, 2, 3] (by decide)⟩

/-- C10: if the peek-buffer fill fails with an IO error, `peek()` returns the
empty slice — the bytes already transferred before the error are discarded —
and `peek_complete()` returns `false`. -/
theorem c10_error_discards_partial_fill (body : List Nat) (h : body.length < PEEK_BYTES) :
    (Data.new ⟨body, true⟩).peek = [] ∧
    (Data.new ⟨body, true⟩).peek_complete = false := by
  rw [data_new_error_eq body h]
  exact ⟨rfl, rfl⟩

/-- Witness for C10 at the concrete failing reader yielding `[7, 7, 7, 7]`
before the error. -/
theorem c10_error_discards_partial_fill_witness :
    ([7, 7, 7, 7] : List Nat).length < PEEK_BYTES ∧
    ((Data.new ⟨[7, 7, 7, 7], true⟩).peek = [] ∧
     (Data.new ⟨[7, 7, 7, 7], true⟩).peek_complete = false) :=
  ⟨by decide, c10_error_discards_partial_fill [7, 7, 7, 7] (by decide)⟩

/-- State of a concrete socket: an identifier for the underlying connection,
the bytes that connection will still deliver, and the read timeout configured
on it (in whole seconds, the only granularity this model needs). -/
structure SocketState where
  id : Nat
  pending : List Nat
  readTimeoutSecs : Option Nat
deriving DecidableEq

/-- Cloning a transport handle yields a handle to the same connection. -/
def SocketState.clone (s : SocketState) : SocketState := s

/-- Modelled from the spec: `NetStream` (from `net_stream.rs`, not under
`src/`) is the clonable transport handle with concrete variants `Http`,
`Https` and `Local`. -/
inductive NetStream
  | Http (sock : SocketState)
  | Https (sock : SocketState)
  | Local (bytes : List Nat)
deriving DecidableEq

/-- Cloning a `NetStream` duplicates the handle, not the socket. -/
def NetStream.clone (s : NetStream) : NetStream := s

/-- Modelled from the spec: setting the read deadline records it on the
underlying socket of the transport handle. -/
def NetStream.set_read_timeout : NetStream → Option Nat → NetStream
  | NetStream.Http s, t => NetStream.Http { s with readTimeoutSecs := t }
  | NetStream.Https s, t => NetStream.Https { s with readTimeoutSecs := t }
  | NetStream.Local b, _ => NetStream.Local b

/-- The bytes a transport stream will still deliver. -/
def NetStream.pendingBytes : NetStream → List Nat
  | NetStream.Http s => s.pending
  | NetStream.Https s => s.pending
  | NetStream.Local b => b

/-- Reading at most `n` bytes from a transport stream.  The `BufReader`
around it in the source is byte-transparent and therefore elided. -/
def NetStream.read : NetStream → Nat → List Nat × NetStream
  | NetStream.Http s, n =>
    (s.pending.take n, NetStream.Http { s with pending := s.pending.drop n })
  | NetStream.Https s, n =>
    (s.pending.take n, NetStream.Https { s with pending := s.pending.drop n })
  | NetStream.Local b, n => (b.take n, NetStream.Local (b.drop n))

/-- `Take<Cursor<Vec<u8>>>`: a cursor over `bytes` positioned at `pos`,
limited to yielding at most `limit` further bytes. -/
structure TakeCursor where
  bytes : List Nat
  pos : Nat
  limit : Nat
deriving DecidableEq

/-- The bytes still available from a bounded cursor. -/
def TakeCursor.avail (t : TakeCursor) : List Nat := (t.bytes.drop t.pos).take t.limit

/-- Reading at most `n` bytes from a bounded cursor advances the position and
decreases the limit by the number of bytes yielded. -/
def TakeCursor.read (t : TakeCursor) (n : Nat) : List Nat × TakeCursor :=
  (t.avail.take n,
    ⟨t.bytes, t.pos + (t.avail.take n).length, t.limit - (t.avail.take n).length⟩)

/-- `Chain<Take<Cursor<Vec<u8>>>, BufReader<NetStream>>`: the two-stage
continuation reader whose reads drain the first stage before the second. -/
structure ChainReader where
  first : TakeCursor
  second : NetStream
  doneFirst : Bool
deriving DecidableEq

/-- One read call on the chained reader, following `std::io::Chain`: while
`doneFirst` is unset, read from the first stage; if that yields no bytes for
a nonzero request, switch to the second stage within the same call. -/
def ChainReader.read (c : ChainReader) (n : Nat) : List Nat × ChainReader :=
  if c.doneFirst then
    ((c.second.read n).1, { c with second := (c.second.read n).2 })
  else if (c.first.read n).1.length = 0 ∧ n ≠ 0 then
    ((c.second.read n).1,
      { first := (c.first.read n).2, second := (c.second.read n).2, doneFirst := true })
  else
    ((c.first.read n).1, { c with first := (c.first.read n).2 })

/-- Repeatedly read `n`-byte chunks from a chained reader until a read yields
no bytes, bounded by `fuel` read calls. -/
def ChainReader.drain : ChainReader → Nat → Nat → List Nat
  | _, _, 0 => []
  | c, n, fuel + 1 =>
    if (c.read n).1.length = 0 then []
    else (c.read n).1 ++ ChainReader.drain (c.read n).2 n fuel

/-- Hyper's `HttpReader`: the four framing variants around an inner reader.
`SizedReader` carries the remaining byte count and `ChunkedReader` the
optional remaining count of the current chunk. -/
inductive HttpReader (α : Type)
  | SizedReader (inner : α) (remaining : Nat)
  | EofReader (inner : α)
  | EmptyReader (inner : α)
  | ChunkedReader (inner : α) (remaining : Option Nat)
deriving DecidableEq

/-- The inner reader of a framing wrapper. -/
def HttpReader.inner {α : Type} : HttpReader α → α
  | HttpReader.SizedReader i _ => i
  | HttpReader.EofReader i => i
  | HttpReader.EmptyReader i => i
  | HttpReader.ChunkedReader i _ => i

/-- Hyper's polymorphic `NetworkStream` trait object seen through
`downcast_ref`: its concrete runtime kind. -/
inductive NetworkStream
  | wrappedStream (sock : SocketState)
  | httpStream (sock : SocketState)
  | other
deriving DecidableEq

/-- The `downcast_ref::<WrappedStream>()` capability inspection. -/
def NetworkStream.downcastWrapped : NetworkStream → Option SocketState
  | NetworkStream.wrappedStream s => some s
  | _ => none

/-- The `downcast_ref::<HttpStream>()` capability inspection. -/
def NetworkStream.downcastHttp : NetworkStream → Option SocketState
  | NetworkStream.httpStream s => some s
  | _ => none

/-- `concrete_stream` (the `tls` build of `from_hyp`'s helper): try the TLS
`WrappedStream` downcast first, then the plain `HttpStream` downcast; clone
the matched handle into the corresponding `NetStream` variant. -/
def concrete_stream (stream : NetworkStream) : Option NetStream :=
  (stream.downcastWrapped.map (fun s => NetStream.Https s.clone)).orElse
    (fun _ => stream.downcastHttp.map (fun s => NetStream.Http s.clone))

/-- The argument of `Data::from_hyp`: the framing variant hyper classified,
the stolen internal buffer with its valid window `[pos, cap)` (from
`take_buf`), and the polymorphic network stream underneath. -/
structure HyperBodyReader where
  framing : HttpReader Unit
  hyperBuf : List Nat
  pos : Nat
  cap : Nat
  netStream : NetworkStream

/-- `Data::from_hyp`, up to (and excluding) the final `Data::new` call:
recover the concrete net stream, set the 5 second read timeout, build the
chained continuation reader over `hyperBuf[pos..cap]` followed by the cloned
stream, and re-wrap it in the original framing variant. -/
def from_hyp (body : HyperBodyReader) : Except String (HttpReader ChainReader) :=
  match concrete_stream body.netStream with
  | none => Except.error "Stream is not an HTTP(s) stream!"
  | some ns =>
    let net_stream := ns.set_read_timeout (some 5)
    let start := body.pos
    let remaining := body.cap - body.pos
    let inner_data : ChainReader :=
      { first := { bytes := body.hyperBuf, pos := start, limit := remaining },
        second := net_stream.clone,
        doneFirst := false }
    let http_stream :=
      match body.framing with
      | HttpReader.SizedReader _ n => HttpReader.SizedReader inner_data n
      | HttpReader.EofReader _ => HttpReader.EofReader inner_data
      | HttpReader.EmptyReader _ => HttpReader.EmptyReader inner_data
      | HttpReader.ChunkedReader _ n => HttpReader.ChunkedReader inner_data n
    Except.ok http_stream

/-- The slice of hyper's stolen buffer that `from_hyp` splices in front of
the live stream: the window `[pos, cap)`, i.e. at most `cap - pos` bytes
starting at position `pos`. -/
def hyperLeftover (buf : List Nat) (p c : Nat) : List Nat := (buf.drop p).take (c - p)

/-- `Data::local`: split the data at `PEEK_BYTES`; the first chunk becomes
the peek buffer and the rest backs a `SizedReader` of exactly its length,
over a chain of an empty cursor and a `Local` stream holding the rest. -/
def Data.localData (data : List Nat) : Data (HttpReader ChainReader) :=
  let p :=
    if data.length ≤ PEEK_BYTES then (data, ([] : List Nat))
    else (data.take PEEK_BYTES, data.drop PEEK_BYTES)
  let stream_len := p.2.length
  let stream : ChainReader :=
    { first := { bytes := [], pos := 0, limit := 0 },
      second := NetStream.Local p.2,
      doneFirst := false }
  { buffer := p.1,
    is_complete := decide (stream_len = 0),
    stream := HttpReader.SizedReader stream stream_len }

/-- C5: `from_hyp` inspects the connection handle's concrete kind against the
closed ordered set {Encrypted (`WrappedStream`), then Plain (`HttpStream`)}:
an unrecognized kind fails with the unsupported-transport error, while each
recognized kind is cloned into the matching `NetStream` variant; on success
the recovered transport handle carried by the continuation reader has its
read deadline set to the fixed 5 seconds. -/
theorem c5_recover_transport (f : HttpReader Unit) (buf : List Nat) (p c : Nat)
    (sock : SocketState) :
    from_hyp ⟨f, buf, p, c, NetworkStream.other⟩
      = Except.error "Stream is not an HTTP(s) stream!" ∧
    concrete_stream (NetworkStream.wrappedStream sock)
      = some (NetStream.Https sock.clone) ∧
    concrete_stream (NetworkStream.httpStream sock)
      = some (NetStream.Http sock.clone) ∧
    (∃ hs, from_hyp ⟨f, buf, p, c, NetworkStream.wrappedStream sock⟩ = Except.ok hs ∧
      hs.inner.second = NetStream.Https { sock with readTimeoutSecs := some 5 }) ∧
    (∃ hs, from_hyp ⟨f, buf, p, c, NetworkStream.httpStream sock⟩ = Except.ok hs ∧
      hs.inner.second = NetStream.Http { sock with readTimeoutSecs := some 5 }) := by
  refine ⟨rfl, rfl, rfl, ?_, ?_⟩ <;> cases f <;> exact ⟨_, rfl, rfl⟩

/-- C7: `from_hyp` re-wraps the new continuation reader in exactly the
framing variant the header-parsing layer pre-classified — `Sized`, `Eof`,
`Empty` or `Chunked` — preserving the remaining-length and chunk-state
counters unchanged. -/
theorem c7_framing_preserved (buf : List Nat) (p c : Nat) (sock : SocketState)
    (n : Nat) (m : Option Nat) :
    from_hyp ⟨HttpReader.SizedReader () n, buf, p, c, NetworkStream.httpStream sock⟩
      = Except.ok (HttpReader.SizedReader
          ⟨⟨buf, p, c - p⟩, NetStream.Http { sock with readTimeoutSecs := some 5 }, false⟩ n) ∧
    from_hyp ⟨HttpReader.EofReader (), buf, p, c, NetworkStream.httpStream sock⟩
      = Except.ok (HttpReader.EofReader
          ⟨⟨buf, p, c - p⟩, NetStream.Http { sock with readTimeoutSecs := some 5 }, false⟩) ∧
    from_hyp ⟨HttpReader.EmptyReader (), buf, p, c, NetworkStream.httpStream sock⟩
      = Except.ok (HttpReader.EmptyReader
          ⟨⟨buf, p, c - p⟩, NetStream.Http { sock with readTimeoutSecs := some 5 }, false⟩) ∧
    from_hyp ⟨HttpReader.ChunkedReader () m, buf, p, c, NetworkStream.httpStream sock⟩
      = Except.ok (HttpReader.ChunkedReader
          ⟨⟨buf, p, c - p⟩, NetStream.Http { sock with readTimeoutSecs := some 5 }, false⟩ m) :=
  ⟨rfl, rfl, rfl, rfl⟩

/-- C8: `Data::local` splits its input at `PEEK_BYTES = 4096`: the first
`min(length, 4096)` bytes become the peek buffer, the remainder backs a
`Sized` framing mode whose length equals the remainder's length, and
`is_complete` holds exactly when the remainder is empty. -/
theorem c8_local_split (data : List Nat) :
    (Data.localData data).buffer = data.take PEEK_BYTES ∧
    (∃ inner : ChainReader,
      (Data.localData data).stream
        = HttpReader.SizedReader inner (data.drop PEEK_BYTES).length ∧
      inner.second = NetStream.Local (data.drop PEEK_BYTES)) ∧
    (Data.localData data).is_complete = decide ((data.drop PEEK_BYTES).length = 0) := by
  by_cases h : data.length ≤ PEEK_BYTES
  · have htake : data.take PEEK_BYTES = data := List.take_of_length_le h
    have hdrop : data.drop PEEK_BYTES = [] := List.drop_eq_nil_of_le h
    refine ⟨?_, ⟨⟨⟨[], 0, 0⟩, NetStream.Local [], false⟩, ?_, ?_⟩, ?_⟩ <;>
      simp [Data.localData, h, htake, hdrop]
  · refine ⟨?_, ⟨⟨⟨[], 0, 0⟩, NetStream.Local (data.drop PEEK_BYTES), false⟩, ?_, ?_⟩, ?_⟩ <;>
      simp [Data.localData, h]

/-- A transport read yields a prefix of the pending bytes. -/
lemma netStream_read_fst (ns : NetStream) (n : Nat) :
    (ns.read n).1 = ns.pendingBytes.take n := by
  cases ns <;> rfl

/-- A transport read leaves the remaining pending bytes behind. -/
lemma netStream_read_snd (ns : NetStream) (n : Nat) :
    ((ns.read n).2).pendingBytes = ns.pendingBytes.drop n := by
  cases ns <;> rfl

/-- The number of bytes a bounded cursor still offers. -/
lemma takeCursor_avail_length (t : TakeCursor) :
    t.avail.length = min t.limit (t.bytes.length - t.pos) := by
  simp [TakeCursor.avail, List.length_take, Nat.min_comm]

/-- A large enough cursor read yields everything still available. -/
lemma takeCursor_read_full (t : TakeCursor) (n : Nat) (hn : t.avail.length ≤ n) :
    (t.read n).1 = t.avail := by
  simp [TakeCursor.read, List.take_of_length_le hn]

/-- After a full read the bounded cursor has nothing left available. -/
lemma takeCursor_read_full_avail (t : TakeCursor) (n : Nat) (hn : t.avail.length ≤ n) :
    ((t.read n).2).avail = [] := by
  rw [← List.length_eq_zero, takeCursor_avail_length]
  have hL := takeCursor_avail_length t
  have hlen : (t.avail.take n).length = t.avail.length := by
    rw [List.take_of_length_le hn]
  simp only [TakeCursor.read, hlen]
  omega

/-- Normal form of one chained read in the not-yet-done state. -/
lemma chain_read_eq (t : TakeCursor) (sec : NetStream) (n : Nat) :
    ChainReader.read ⟨t, sec, false⟩ n
      = if (t.read n).1.length = 0 ∧ n ≠ 0 then
          ((sec.read n).1, ⟨(t.read n).2, (sec.read n).2, true⟩)
        else ((t.read n).1, ⟨(t.read n).2, sec, false⟩) := rfl

/-- One chained read while the first stage still yields bytes (or the request
is empty): the second stage is untouched. -/
lemma chain_read_first_some (t : TakeCursor) (sec : NetStream) (n : Nat)
    (h : ¬ ((t.read n).1.length = 0 ∧ n ≠ 0)) :
    ChainReader.read ⟨t, sec, false⟩ n = ((t.read n).1, ⟨(t.read n).2, sec, false⟩) := by
  rw [chain_read_eq, if_neg h]

/-- One chained read that finds the first stage empty switches to the second
stage within the same call. -/
lemma chain_read_switch (t : TakeCursor) (sec : NetStream) (n : Nat)
    (h : (t.read n).1.length = 0 ∧ n ≠ 0) :
    ChainReader.read ⟨t, sec, false⟩ n
      = ((sec.read n).1, ⟨(t.read n).2, (sec.read n).2, true⟩) := by
  rw [chain_read_eq, if_pos h]

/-- One chained read after the first stage is done reads the second stage. -/
lemma chain_read_done (t : TakeCursor) (sec : NetStream) (n : Nat) :
    ChainReader.read ⟨t, sec, true⟩ n = ((sec.read n).1, ⟨t, (sec.read n).2, true⟩) := rfl

/-- Unfolding one fueled drain step. -/
lemma chain_drain_succ (c : ChainReader) (n fuel : Nat) :
    ChainReader.drain c n (fuel + 1)
      = if (c.read n).1.length = 0 then []
        else (c.read n).1 ++ ChainReader.drain (c.read n).2 n fuel := rfl

/-- A chained read that stays within the first stage yields the requested
prefix of the first stage and leaves the second stage untouched. -/
lemma chain_read_from_first (t : TakeCursor) (sec : NetStream) (m : Nat)
    (hm : m ≤ t.avail.length) :
    (ChainReader.read ⟨t, sec, false⟩ m).1 = t.avail.take m ∧
    ((ChainReader.read ⟨t, sec, false⟩ m).2).second = sec := by
  have hcond : ¬ ((t.read m).1.length = 0 ∧ m ≠ 0) := by
    show ¬ ((t.avail.take m).length = 0 ∧ m ≠ 0)
    rw [List.length_take]
    omega
  rw [chain_read_first_some t sec m hcond]
  exact ⟨rfl, rfl⟩

/-- Draining the chained reader with large enough reads yields the bytes of
the first stage followed by the bytes of the second stage. -/
lemma chain_drain_all (t : TakeCursor) (sec : NetStream) (n : Nat)
    (hA : t.avail.length ≤ n) (hP : sec.pendingBytes.length ≤ n) (hn : n ≠ 0) :
    ChainReader.drain ⟨t, sec, false⟩ n 3 = t.avail ++ sec.pendingBytes := by
  have hPfull : (sec.read n).1 = sec.pendingBytes := by
    rw [netStream_read_fst, List.take_of_length_le hP]
  have hPdrop : ((sec.read n).2).pendingBytes = [] := by
    rw [netStream_read_snd, List.drop_eq_nil_of_le hP]
  have h2 : (((sec.read n).2).read n).1 = [] := by
    rw [netStream_read_fst, hPdrop, List.take_nil]
  have h1 : (t.read n).1 = t.avail := takeCursor_read_full t n hA
  have hexhread : (((t.read n).2).read n).1 = [] := by
    show ((t.read n).2).avail.take n = []
    rw [takeCursor_read_full_avail t n hA, List.take_nil]
  rw [show (3 : Nat) = 2 + 1 from rfl, chain_drain_succ]
  by_cases hA0 : t.avail = []
  · have hcond : (t.read n).1.length = 0 ∧ n ≠ 0 := by
      rw [h1, hA0]
      exact ⟨rfl, hn⟩
    rw [chain_read_switch t sec n hcond]
    by_cases hP0 : sec.pendingBytes = []
    · simp [hPfull, hP0, hA0]
    · have hd1 : ChainReader.drain ⟨(t.read n).2, (sec.read n).2, true⟩ n 2 = [] := by
        rw [show (2 : Nat) = 1 + 1 from rfl, chain_drain_succ, chain_read_done]
        simp [h2]
      simp [hPfull, hd1, hA0, List.length_eq_zero, hP0]
  · have hA0len : ¬ ((t.read n).1.length = 0) := by
      rw [h1]
      exact fun hh => hA0 (List.length_eq_zero.mp hh)
    rw [chain_read_first_some t sec n (by exact fun hc => hA0len hc.1)]
    have hcond2 : (((t.read n).2).read n).1.length = 0 ∧ n ≠ 0 := by
      rw [hexhread]
      exact ⟨rfl, hn⟩
    have hd1 : ChainReader.drain ⟨(t.read n).2, sec, false⟩ n 2 = sec.pendingBytes := by
      rw [show (2 : Nat) = 1 + 1 from rfl, chain_drain_succ,
        chain_read_switch _ _ _ hcond2]
      by_cases hP0 : sec.pendingBytes = []
      · simp [hPfull, hP0]
      · have hd2 : ChainReader.drain ⟨((t.read n).2.read n).2, (sec.read n).2, true⟩ n 1 = [] := by
          rw [show (1 : Nat) = 0 + 1 from rfl, chain_drain_succ, chain_read_done]
          simp [h2]
        simp [hPfull, hd2, List.length_eq_zero, hP0]
    simp [h1, hA0, hd1]

/-- C6: the continuation reader built by `from_hyp` yields exactly the
leftover bytes `hyperBuf[pos..cap]` first — reads that stay within the
leftover leave the transport stage untouched — and draining it yields the
leftover bytes followed by the cloned transport stream's bytes. -/
theorem c6_leftover_before_socket (f : HttpReader Unit) (buf : List Nat) (p c : Nat)
    (sock : SocketState) :
    ∃ hs, from_hyp ⟨f, buf, p, c, NetworkStream.httpStream sock⟩ = Except.ok hs ∧
      (∀ n : Nat,
        (hs.inner.read (min n (hyperLeftover buf p c).length)).1
          = (hyperLeftover buf p c).take (min n (hyperLeftover buf p c).length) ∧
        ((hs.inner.read (min n (hyperLeftover buf p c).length)).2).second
          = hs.inner.second) ∧
      ChainReader.drain hs.inner
          ((hyperLeftover buf p c).length + sock.pending.length + 1) 3
        = hyperLeftover buf p c ++ sock.pending := by
  have hmain1 : ∀ n : Nat,
      (ChainReader.read
          ⟨⟨buf, p, c - p⟩, NetStream.Http { sock with readTimeoutSecs := some 5 }, false⟩
          (min n (hyperLeftover buf p c).length)).1
        = (hyperLeftover buf p c).take (min n (hyperLeftover buf p c).length) ∧
      ((ChainReader.read
          ⟨⟨buf, p, c - p⟩, NetStream.Http { sock with readTimeoutSecs := some 5 }, false⟩
          (min n (hyperLeftover buf p c).length)).2).second
        = NetStream.Http { sock with readTimeoutSecs := some 5 } := by
    intro n
    exact chain_read_from_first ⟨buf, p, c - p⟩
      (NetStream.Http { sock with readTimeoutSecs := some 5 })
      (min n (hyperLeftover buf p c).length) (Nat.min_le_right _ _)
  have hmain2 :
      ChainReader.drain
          ⟨⟨buf, p, c - p⟩, NetStream.Http { sock with readTimeoutSecs := some 5 }, false⟩
          ((hyperLeftover buf p c).length + sock.pending.length + 1) 3
        = hyperLeftover buf p c ++ sock.pending := by
    refine chain_drain_all ⟨buf, p, c - p⟩
      (NetStream.Http { sock with readTimeoutSecs := some 5 }) _ ?_ ?_ ?_
    · show (hyperLeftover buf p c).length ≤ _
      omega
    · show sock.pending.length ≤ _
      omega
    · omega
  cases f <;> exact ⟨_, rfl, hmain1, hmain2⟩
